import Mathlib

/-!
Verification of the GraphApp repository against its design specification.

Part 1 embeds the frontend Redux graph slice
(`frontend/src/src/redux/graphSlice.ts`): the state shape, the initial
state, and the four reducers `addNode`, `removeNode`, `addEdge` and
`updateNode`, together with reachability of states under these operations.

Part 2 models the backend Graph Neighborhood Query Engine.  The backend
implementation itself is not part of the available sources (only its REST
test scripts and READMEs are), so the engine is modelled from the design
specification: parameter validation, the three assembly strategies,
breadth-first neighborhood traversal, the limit/truncation policy and the
extradata filter pipeline.
-/

namespace GraphSlice

/-- A React-Flow node as used by the slice: an id plus display payload
(position, label, node type). -/
structure Node where
  id : String
  posX : Int
  posY : Int
  label : String
  type : String
deriving DecidableEq

/-- A React-Flow edge: id, source node id, target node id, animation flag. -/
structure Edge where
  id : String
  source : String
  target : String
  animated : Bool
deriving DecidableEq

/-- The `GraphState` interface of the slice. -/
structure GraphState where
  nodes : List Node
  edges : List Edge
  loading : Bool
  error : Option String
deriving DecidableEq

/-- The `initialState` constant of the slice: entities A, B, C and the two
edges `e1-2` and `e1-3`. -/
def initialState : GraphState :=
  { nodes :=
      [ ⟨"1", 250, 25, "Entity A", "default"⟩
      , ⟨"2", 100, 125, "Entity B", "default"⟩
      , ⟨"3", 400, 125, "Entity C", "default"⟩ ]
  , edges :=
      [ ⟨"e1-2", "1", "2", true⟩
      , ⟨"e1-3", "1", "3", false⟩ ]
  , loading := false
  , error := none }

/-- Reducer `addNode`: pushes the payload node onto the node list. -/
def addNode (s : GraphState) (n : Node) : GraphState :=
  { s with nodes := s.nodes ++ [n] }

/-- Reducer `removeNode`: filters out every node whose id equals the payload
and every edge whose source or target equals the payload. -/
def removeNode (s : GraphState) (i : String) : GraphState :=
  { s with
    nodes := s.nodes.filter (fun n => n.id != i)
    edges := s.edges.filter (fun e => e.source != i && e.target != i) }

/-- Reducer `addEdge`: pushes the payload edge onto the edge list. -/
def addEdge (s : GraphState) (e : Edge) : GraphState :=
  { s with edges := s.edges ++ [e] }

/-- Reducer `updateNode`: finds the first node whose id equals the payload's
id and, when found, overwrites that slot with the payload. -/
def updateNode (s : GraphState) (p : Node) : GraphState :=
  match s.nodes.findIdx? (fun n => n.id == p.id) with
  | some i => { s with nodes := s.nodes.set i p }
  | none => s

/-- States reachable from `initialState` by any sequence of the four
reducers. -/
inductive Reach : GraphState → Prop where
  | init : Reach initialState
  | addNode {s} (n : Node) : Reach s → Reach (addNode s n)
  | removeNode {s} (i : String) : Reach s → Reach (removeNode s i)
  | addEdge {s} (e : Edge) : Reach s → Reach (addEdge s e)
  | updateNode {s} (p : Node) : Reach s → Reach (updateNode s p)

/-- Every edge of the state has both endpoints among the state's node ids. -/
def NoDangling (s : GraphState) : Prop :=
  ∀ e ∈ s.edges, (∃ n ∈ s.nodes, n.id = e.source) ∧ ∃ n ∈ s.nodes, n.id = e.target

instance (s : GraphState) : Decidable (NoDangling s) := by
  unfold NoDangling; infer_instance

/-- Node ids are pairwise distinct and edge ids are pairwise distinct. -/
def UniqueIds (s : GraphState) : Prop :=
  (s.nodes.map Node.id).Nodup ∧ (s.edges.map Edge.id).Nodup

instance (s : GraphState) : Decidable (UniqueIds s) := by
  unfold UniqueIds; infer_instance

/-- States reachable when every `addEdge` call supplies an edge whose two
endpoints are already node ids of the current state (the guard the reducer
itself does not enforce). -/
inductive ReachSafeEdges : GraphState → Prop where
  | init : ReachSafeEdges initialState
  | addNode {s} (n : Node) : ReachSafeEdges s → ReachSafeEdges (addNode s n)
  | removeNode {s} (i : String) : ReachSafeEdges s → ReachSafeEdges (removeNode s i)
  | addEdge {s} (e : Edge) : ReachSafeEdges s →
      (∃ n ∈ s.nodes, n.id = e.source) → (∃ n ∈ s.nodes, n.id = e.target) →
      ReachSafeEdges (addEdge s e)
  | updateNode {s} (p : Node) : ReachSafeEdges s → ReachSafeEdges (updateNode s p)

/-- States reachable when every `addNode` call supplies a fresh node id and
every `addEdge` call supplies a fresh edge id (the guards the reducers
themselves do not enforce). -/
inductive ReachFreshIds : GraphState → Prop where
  | init : ReachFreshIds initialState
  | addNode {s} (n : Node) : ReachFreshIds s →
      n.id ∉ s.nodes.map Node.id → ReachFreshIds (addNode s n)
  | removeNode {s} (i : String) : ReachFreshIds s → ReachFreshIds (removeNode s i)
  | addEdge {s} (e : Edge) : ReachFreshIds s →
      e.id ∉ s.edges.map Edge.id → ReachFreshIds (addEdge s e)
  | updateNode {s} (p : Node) : ReachFreshIds s → ReachFreshIds (updateNode s p)

/-- `updateNode` never changes the list of node ids: when a slot is
overwritten, the overwriting payload carries the same id. -/
lemma updateNode_map_id (s : GraphState) (p : Node) :
    (updateNode s p).nodes.map Node.id = s.nodes.map Node.id := by
  unfold updateNode
  cases h : s.nodes.findIdx? (fun n => n.id == p.id) with
  | none => rfl
  | some i =>
    simp only
    rw [List.map_set]
    obtain ⟨hlen, hp, -⟩ := List.findIdx?_eq_some_iff_getElem.mp h
    have hid : p.id = s.nodes[i].id := by
      have := of_decide_eq_true hp
      simpa [eq_comm] using this
    apply List.ext_getElem
    · simp
    · intro j h1 h2
      rw [List.getElem_set]
      split
      · next heq => subst heq; simp [hid]
      · rfl

lemma updateNode_edges (s : GraphState) (p : Node) :
    (updateNode s p).edges = s.edges := by
  unfold updateNode
  cases h : s.nodes.findIdx? (fun n => n.id == p.id) <;> rfl

/-- An id is among a state's node ids iff some node of the state carries it. -/
lemma mem_map_id_iff (l : List Node) (x : String) :
    x ∈ l.map Node.id ↔ ∃ n ∈ l, n.id = x := by
  simp [List.mem_map, eq_comm]

end GraphSlice

namespace GraphSlice

lemma noDangling_addNode {s : GraphState} (h : NoDangling s) (n : Node) :
    NoDangling (addNode s n) := by
  intro e he
  obtain ⟨⟨m1, hm1, h1⟩, ⟨m2, hm2, h2⟩⟩ := h e he
  exact ⟨⟨m1, List.mem_append_left _ hm1, h1⟩, ⟨m2, List.mem_append_left _ hm2, h2⟩⟩

lemma noDangling_removeNode {s : GraphState} (h : NoDangling s) (i : String) :
    NoDangling (removeNode s i) := by
  intro e he
  rw [removeNode, List.mem_filter] at he
  obtain ⟨he, hcond⟩ := he
  have hs : e.source ≠ i := by
    have := (Bool.and_eq_true _ _).mp hcond |>.1
    simpa [bne_iff_ne] using this
  have ht : e.target ≠ i := by
    have := (Bool.and_eq_true _ _).mp hcond |>.2
    simpa [bne_iff_ne] using this
  obtain ⟨⟨m1, hm1, h1⟩, ⟨m2, hm2, h2⟩⟩ := h e he
  refine ⟨⟨m1, ?_, h1⟩, ⟨m2, ?_, h2⟩⟩
  · exact List.mem_filter.mpr ⟨hm1, by simpa [bne_iff_ne] using h1 ▸ hs⟩
  · exact List.mem_filter.mpr ⟨hm2, by simpa [bne_iff_ne] using h2 ▸ ht⟩

lemma noDangling_updateNode {s : GraphState} (h : NoDangling s) (p : Node) :
    NoDangling (updateNode s p) := by
  intro e he
  rw [updateNode_edges] at he
  obtain ⟨h1, h2⟩ := h e he
  constructor
  · exact (mem_map_id_iff _ _).mp (by
      rw [updateNode_map_id]; exact (mem_map_id_iff _ _).mpr h1)
  · exact (mem_map_id_iff _ _).mp (by
      rw [updateNode_map_id]; exact (mem_map_id_iff _ _).mpr h2)


/-- C1 counterexample state: from the initial state, `addEdge` with an edge
whose source id `9` names no node. -/
def danglingState : GraphState :=
  addEdge initialState ⟨"e9", "9", "1", false⟩

/-- C2 counterexample state: from the initial state, `addNode` with a node
reusing the already-present id `1`. -/
def duplicateIdState : GraphState :=
  addNode initialState ⟨"1", 0, 0, "Copy", "default"⟩

lemma uniqueIds_removeNode {s : GraphState} (h : UniqueIds s) (i : String) :
    UniqueIds (removeNode s i) := by
  obtain ⟨hn, he⟩ := h
  constructor
  · exact ((List.filter_sublist _).map Node.id).nodup hn
  · exact ((List.filter_sublist _).map Edge.id).nodup he

lemma uniqueIds_updateNode {s : GraphState} (h : UniqueIds s) (p : Node) :
    UniqueIds (updateNode s p) := by
  obtain ⟨hn, he⟩ := h
  exact ⟨by rw [updateNode_map_id]; exact hn, by rw [updateNode_edges]; exact he⟩

lemma uniqueIds_addNode {s : GraphState} (h : UniqueIds s) {n : Node}
    (hfresh : n.id ∉ s.nodes.map Node.id) : UniqueIds (addNode s n) := by
  obtain ⟨hn, he⟩ := h
  refine ⟨?_, he⟩
  rw [addNode]
  simp only [List.map_append, List.map_cons, List.map_nil]
  rw [List.nodup_append]
  exact ⟨hn, List.nodup_singleton _, by
    intro x hx hx1
    simp only [List.mem_singleton] at hx1
    exact hfresh (hx1 ▸ hx)⟩

lemma uniqueIds_addEdge {s : GraphState} (h : UniqueIds s) {e : Edge}
    (hfresh : e.id ∉ s.edges.map Edge.id) : UniqueIds (addEdge s e) := by
  obtain ⟨hn, he⟩ := h
  refine ⟨hn, ?_⟩
  rw [addEdge]
  simp only [List.map_append, List.map_cons, List.map_nil]
  rw [List.nodup_append]
  exact ⟨he, List.nodup_singleton _, by
    intro x hx hx1
    simp only [List.mem_singleton] at hx1
    exact hfresh (hx1 ▸ hx)⟩

end GraphSlice

namespace GraphSlice

lemma noDangling_addEdge {s : GraphState} (h : NoDangling s) {e : Edge}
    (h1 : ∃ n ∈ s.nodes, n.id = e.source) (h2 : ∃ n ∈ s.nodes, n.id = e.target) :
    NoDangling (addEdge s e) := by
  intro e' he'
  rcases List.mem_append.mp he' with hold | hnew
  · exact h e' hold
  · rw [List.mem_singleton] at hnew
    subst hnew
    exact ⟨h1, h2⟩

end GraphSlice

/-- C1 (counterexample): the no-dangling-edge invariant fails on the code:
from the initial state, a single `addEdge` whose source id `9` names no node
yields a reachable state with a dangling edge — the reducer performs no
endpoint check. -/
theorem c1_reach_counterexample :
    GraphSlice.Reach GraphSlice.danglingState ∧ ¬ GraphSlice.NoDangling GraphSlice.danglingState :=
  ⟨GraphSlice.Reach.addEdge _ GraphSlice.Reach.init, by decide⟩

/-- C1 (amended): for every state reachable from the initial state by the
four reducers, where every `addEdge` call supplies an edge whose source and
target ids are already node ids of the current state, every edge of the
state references only present nodes. -/
theorem c1_no_dangling_of_guarded_reach (s : GraphSlice.GraphState)
    (h : GraphSlice.ReachSafeEdges s) : GraphSlice.NoDangling s := by
  induction h with
  | init => decide
  | addNode n _ ih => exact GraphSlice.noDangling_addNode ih n
  | removeNode i _ ih => exact GraphSlice.noDangling_removeNode ih i
  | addEdge e _ h1 h2 ih => exact GraphSlice.noDangling_addEdge ih h1 h2
  | updateNode p _ ih => exact GraphSlice.noDangling_updateNode ih p

/-- C1 witness: the amended invariant holds at a concrete reachable state. -/
theorem c1_no_dangling_witness :
    GraphSlice.NoDangling
      (GraphSlice.addEdge (GraphSlice.removeNode GraphSlice.initialState "2")
        ⟨"e1-3b", "1", "3", false⟩) :=
  c1_no_dangling_of_guarded_reach _
    (GraphSlice.ReachSafeEdges.addEdge _
      (GraphSlice.ReachSafeEdges.removeNode _ GraphSlice.ReachSafeEdges.init)
      (by decide) (by decide))

/-- C2 (counterexample): identifier uniqueness fails on the code: from the
initial state, a single `addNode` reusing the existing id `1` yields a
reachable state with two nodes of the same id — the reducer performs no
uniqueness check. -/
theorem c2_reach_counterexample :
    GraphSlice.Reach GraphSlice.duplicateIdState ∧ ¬ GraphSlice.UniqueIds GraphSlice.duplicateIdState :=
  ⟨GraphSlice.Reach.addNode _ GraphSlice.Reach.init, by decide⟩

/-- C2 (amended): for every state reachable from the initial state by the
four reducers, where every `addNode` call supplies a node id not already
present and every `addEdge` call supplies an edge id not already present,
node ids are pairwise distinct and edge ids are pairwise distinct. -/
theorem c2_unique_ids_of_guarded_reach (s : GraphSlice.GraphState)
    (h : GraphSlice.ReachFreshIds s) : GraphSlice.UniqueIds s := by
  induction h with
  | init => decide
  | addNode n _ hfresh ih => exact GraphSlice.uniqueIds_addNode ih hfresh
  | removeNode i _ ih => exact GraphSlice.uniqueIds_removeNode ih i
  | addEdge e _ hfresh ih => exact GraphSlice.uniqueIds_addEdge ih hfresh
  | updateNode p _ ih => exact GraphSlice.uniqueIds_updateNode ih p

/-- C2 witness: the amended invariant holds at a concrete reachable state. -/
theorem c2_unique_ids_witness :
    GraphSlice.UniqueIds
      (GraphSlice.addNode (GraphSlice.removeNode GraphSlice.initialState "3")
        ⟨"4", 0, 0, "Entity D", "default"⟩) :=
  c2_unique_ids_of_guarded_reach _
    (GraphSlice.ReachFreshIds.addNode _
      (GraphSlice.ReachFreshIds.removeNode _ GraphSlice.ReachFreshIds.init)
      (by decide))

/-- C9: `removeNode` removes exactly the nodes carrying the targeted id and
exactly the edges incident to it; everything else is retained in its
original order, and the rest of the state is untouched. -/
theorem c9_removeNode_spec (s : GraphSlice.GraphState) (i : String) :
    (GraphSlice.removeNode s i).nodes.Sublist s.nodes ∧
    (∀ n, n ∈ (GraphSlice.removeNode s i).nodes ↔ n ∈ s.nodes ∧ n.id ≠ i) ∧
    (GraphSlice.removeNode s i).edges.Sublist s.edges ∧
    (∀ e, e ∈ (GraphSlice.removeNode s i).edges ↔
      e ∈ s.edges ∧ e.source ≠ i ∧ e.target ≠ i) ∧
    (GraphSlice.removeNode s i).loading = s.loading ∧
    (GraphSlice.removeNode s i).error = s.error := by
  refine ⟨List.filter_sublist _, ?_, List.filter_sublist _, ?_, rfl, rfl⟩
  · intro n
    rw [GraphSlice.removeNode]
    simp [List.mem_filter, bne_iff_ne]
  · intro e
    rw [GraphSlice.removeNode]
    simp [List.mem_filter, bne_iff_ne]

/-- C10: `updateNode` is the identity when no node matches the payload's id;
otherwise it overwrites exactly the first matching slot with the payload,
keeps every other node and the node order, and never touches edges, loading
or error. -/
theorem c10_updateNode_spec (s : GraphSlice.GraphState) (p : GraphSlice.Node) :
    ((∀ n ∈ s.nodes, n.id ≠ p.id) → GraphSlice.updateNode s p = s) ∧
    ((GraphSlice.updateNode s p).edges = s.edges ∧
     (GraphSlice.updateNode s p).loading = s.loading ∧
     (GraphSlice.updateNode s p).error = s.error ∧
     (GraphSlice.updateNode s p).nodes.length = s.nodes.length) ∧
    (∀ i (h : i < s.nodes.length), (s.nodes.get ⟨i, h⟩).id = p.id →
      (∀ j (hj : j < i), (s.nodes.get ⟨j, Nat.lt_trans hj h⟩).id ≠ p.id) →
      (GraphSlice.updateNode s p).nodes =
        s.nodes.take i ++ p :: s.nodes.drop (i + 1)) := by
  refine ⟨?_, ⟨GraphSlice.updateNode_edges s p, ?_, ?_, ?_⟩, ?_⟩
  · intro hnone
    have h : s.nodes.findIdx? (fun n => n.id == p.id) = none := by
      rw [List.findIdx?_eq_none_iff]
      intro n hn
      simpa using hnone n hn
    rw [GraphSlice.updateNode, h]
  · rw [GraphSlice.updateNode]
    cases s.nodes.findIdx? (fun n => n.id == p.id) <;> rfl
  · rw [GraphSlice.updateNode]
    cases s.nodes.findIdx? (fun n => n.id == p.id) <;> rfl
  · have := GraphSlice.updateNode_map_id s p
    calc (GraphSlice.updateNode s p).nodes.length
        = ((GraphSlice.updateNode s p).nodes.map GraphSlice.Node.id).length := by
          rw [List.length_map]
      _ = (s.nodes.map GraphSlice.Node.id).length := by rw [this]
      _ = s.nodes.length := by rw [List.length_map]
  · intro i h hid hne
    have hfound : s.nodes.findIdx? (fun n => n.id == p.id) = some i := by
      rw [List.findIdx?_eq_some_iff_getElem]
      refine ⟨h, by simpa using hid, ?_⟩
      intro j hj
      simpa using hne j hj
    rw [GraphSlice.updateNode, hfound]
    simp only
    exact List.set_eq_take_cons_drop p h

/-- C10 witness: concrete runs of `updateNode` on the initial state, one
with a missing id and one replacing the first matching slot. -/
theorem c10_updateNode_witness :
    GraphSlice.updateNode GraphSlice.initialState ⟨"9", 0, 0, "X", "default"⟩ =
      GraphSlice.initialState ∧
    (GraphSlice.updateNode GraphSlice.initialState
        ⟨"2", 5, 5, "Entity B2", "default"⟩).nodes =
      GraphSlice.initialState.nodes.take 1 ++
        ⟨"2", 5, 5, "Entity B2", "default"⟩ :: GraphSlice.initialState.nodes.drop 2 :=
  ⟨(c10_updateNode_spec GraphSlice.initialState ⟨"9", 0, 0, "X", "default"⟩).1
      (by decide),
   (c10_updateNode_spec GraphSlice.initialState
      ⟨"2", 5, 5, "Entity B2", "default"⟩).2.2 1 (by decide) (by decide)
      (by decide)⟩

namespace Engine

/-- Lexicographic comparison of character lists by code point; used as the
deterministic ordering on identifiers (UUID strings compare bytewise). -/
def charsLe : List Char → List Char → Bool
  | [], _ => true
  | _ :: _, [] => false
  | a :: as, b :: bs =>
      if a < b then true
      else if b < a then false
      else charsLe as bs

/-- Identifier ordering: lexicographic on the underlying characters. -/
def idLe (a b : String) : Bool := charsLe a.data b.data

/-- Modelled from the spec: an entity record (§3) — identifier, type tag and
attribute mapping.  Timestamps are omitted: the engine never reads them. -/
structure Entity where
  id : String
  type : String
  attributes : List (String × String)
deriving DecidableEq

/-- Modelled from the spec: a relationship record (§3) — identifier, source
and target entity ids, type tag and optional extradata mapping. -/
structure Relationship where
  id : String
  source : String
  target : String
  type : String
  extradata : List (String × String)
deriving DecidableEq

/-- Modelled from the spec: the external entity/relationship stores (§2, §6)
as the two relational collections the engine reads. -/
structure Store where
  entities : List Entity
  relationships : List Relationship
deriving DecidableEq

/-- Modelled from the spec: `GetEntity(id) -> Entity | NotFound` (§6). -/
def getEntity (st : Store) (i : String) : Option Entity :=
  st.entities.find? (fun e => e.id == i)

/-- Modelled from the spec: `ListEntitiesByType(type)` (§6). -/
def listEntitiesByType (st : Store) (t : String) : List Entity :=
  st.entities.filter (fun e => e.type == t)

/-- A relationship passes the optional relationship-type filter (§2 Filter
Pipeline) when no filter is set or its type equals the filter. -/
def matchesType (tf : Option String) (r : Relationship) : Bool :=
  match tf with
  | none => true
  | some t => r.type == t

def relTouches (ids : List String) (r : Relationship) : Bool :=
  ids.contains r.source || ids.contains r.target

/-- Modelled from the spec: `ListRelationshipsTouching(ids, typeFilter)`
(§6), the batched per-level lookup. -/
def relationshipsTouching (st : Store) (ids : List String) (tf : Option String) :
    List Relationship :=
  st.relationships.filter (fun r => matchesType tf r && relTouches ids r)

/-- Identifier order on entities. -/
def entLe (a b : Entity) : Prop := idLe a.id b.id = true

instance : DecidableRel entLe := fun a b => by unfold entLe; infer_instance

/-- Identifier order on relationships. -/
def relLe (a b : Relationship) : Prop := idLe a.id b.id = true

instance : DecidableRel relLe := fun a b => by unfold relLe; infer_instance

/-- Deterministic entity ordering: ascending entity id (§4.5). -/
def sortEnts (es : List Entity) : List Entity :=
  es.insertionSort entLe

/-- Deterministic relationship ordering: ascending relationship id (§4.4). -/
def sortRels (rs : List Relationship) : List Relationship :=
  rs.insertionSort relLe

/-- Modelled from the spec: the scope tag of a validated query (§3). -/
inductive Scope where
  | full
  | byType
  | neighborhood
deriving DecidableEq

/-- Modelled from the spec: the validation error taxonomy (§4.1, §7). -/
inductive ValidationError where
  | invalidScope
  | missingParameter
  | invalidIdentifier
  | invalidRange
deriving DecidableEq

deriving instance DecidableEq for Except

/-- Modelled from the spec: engine-level errors surfaced to the caller (§7).
Cancellation and store faults concern real time and external I/O and are
outside the model. -/
inductive QueryError where
  | validation (e : ValidationError)
  | notFound
deriving DecidableEq

/-- Modelled from the spec: the typed query descriptor produced by
validation (§3). -/
structure QueryDescriptor where
  scope : Scope
  entityType : Option String
  rootId : Option String
  depth : Nat
  relationshipType : Option String
  limitNodes : Nat
  limitEdges : Nat
  includeExtradata : Bool
deriving DecidableEq

/-- Modelled from the spec: the raw query surface (§6) — every parameter
optional and untyped prior to validation. -/
structure RawQuery where
  scope : Option String
  entityType : Option String
  rootId : Option String
  depth : Option Int
  relationshipType : Option String
  limitNodes : Option Int
  limitEdges : Option Int
  includeExtradata : Option Bool
deriving DecidableEq

/-- Modelled from the spec: the graph-view result (§3) — node list, edge
list and the truncated flag. -/
structure GraphView where
  nodes : List Entity
  edges : List Relationship
  truncated : Bool
deriving DecidableEq

/-- Engine-wide depth ceiling (§5: depth capped regardless of caller input). -/
def maxDepthCeiling : Nat := 10

/-- Engine-wide maximum node cap, also the default `limit_nodes` (§6). -/
def maxLimitNodes : Nat := 1000

/-- Engine-wide maximum edge cap, also the default `limit_edges` (§6). -/
def maxLimitEdges : Nat := 2000

def isHexChar (c : Char) : Bool :=
  c.isDigit || ('a' ≤ c && c ≤ 'f') || ('A' ≤ c && c ≤ 'F')

/-- Split a character list on the hyphen separator. -/
def splitOnDash : List Char → List (List Char)
  | [] => [[]]
  | c :: cs =>
      if c = '-' then [] :: splitOnDash cs
      else
        match splitOnDash cs with
        | g :: gs => (c :: g) :: gs
        | [] => [[c]]

/-- Modelled from the spec: a well-formed entity identifier is a UUID
(§3) — five hyphen-separated hex groups of sizes 8-4-4-4-12. -/
def isValidIdentifier (s : String) : Bool :=
  let parts := splitOnDash s.data
  parts.map List.length == [8, 4, 4, 4, 12] &&
    parts.all (fun p => p.all isHexChar)

/-- Modelled from the spec: scope parsing (§6) — absent scope defaults to
`full`, unknown tags are rejected. -/
def parseScope : Option String → Option Scope
  | none => some Scope.full
  | some "full" => some Scope.full
  | some "by_type" => some Scope.byType
  | some "neighborhood" => some Scope.neighborhood
  | some _ => none

/-- Modelled from the spec: depth defaults to 1, must be ≥ 0 and at most the
engine ceiling (§3, §4.1). -/
def checkDepth : Option Int → Except ValidationError Nat
  | none => Except.ok 1
  | some n =>
      if n < 0 || (maxDepthCeiling : Int) < n then Except.error ValidationError.invalidRange
      else Except.ok n.toNat

/-- Modelled from the spec: node/edge limits default to the engine maximum,
must be positive and at most the ceiling (§4.1). -/
def checkLimit (v : Option Int) (ceiling : Nat) : Except ValidationError Nat :=
  match v with
  | none => Except.ok ceiling
  | some n =>
      if n < 1 || (ceiling : Int) < n then Except.error ValidationError.invalidRange
      else Except.ok n.toNat

/-- Modelled from the spec: the Query Parameter Validator (§4.1) — pure,
store-free translation of the raw parameters into a typed descriptor, or the
first applicable validation error. -/
def validate (raw : RawQuery) : Except ValidationError QueryDescriptor :=
  match parseScope raw.scope with
  | none => Except.error ValidationError.invalidScope
  | some sc =>
      if sc == Scope.byType && raw.entityType.isNone then
        Except.error ValidationError.missingParameter
      else if sc == Scope.neighborhood && raw.rootId.isNone then
        Except.error ValidationError.missingParameter
      else if (match raw.rootId with
               | some r => !isValidIdentifier r
               | none => false) then
        Except.error ValidationError.invalidIdentifier
      else do
        let d ← checkDepth raw.depth
        let ln ← checkLimit raw.limitNodes maxLimitNodes
        let le' ← checkLimit raw.limitEdges maxLimitEdges
        Except.ok ⟨sc, raw.entityType, raw.rootId, d, raw.relationshipType,
                   ln, le', raw.includeExtradata.getD true⟩

end Engine

namespace Engine

/-- Modelled from the spec: the relationships fetched for one BFS frontier
level (§4.4) — one batched store call over all frontier nodes, results
ordered by ascending relationship id for deterministic visitation. -/
def levelRels (st : Store) (tf : Option String) (frontier : List String) :
    List Relationship :=
  sortRels (relationshipsTouching st frontier tf)

/-- Append an id to the accumulator unless it was already visited or
already accumulated. -/
def addFresh (visited acc : List String) (x : String) : List String :=
  if visited.contains x || acc.contains x then acc else acc ++ [x]

/-- Modelled from the spec: collect the ids newly discovered at one BFS
level (§4.4) — endpoints of the fetched relationships not yet visited, in
relationship order, without duplicates. -/
def collectNew (visited : List String) : List Relationship → List String → List String
  | [], acc => acc
  | r :: rs, acc =>
      collectNew visited rs (addFresh visited (addFresh visited acc r.source) r.target)

/-- Modelled from the spec: record fetched relationships into the edge
accumulator, skipping ids already recorded (§4.4 cross-edge recording,
unique edge ids §3). -/
def addRels : List Relationship → List Relationship → List Relationship
  | acc, [] => acc
  | acc, r :: rs =>
      addRels (if acc.any (fun x => x.id == r.id) then acc else acc ++ [r]) rs

/-- Modelled from the spec: the breadth-first expansion loop (§4.4) — one
batched fetch per level, stops when the frontier is empty or the depth is
exhausted; accumulates the visited ids in visitation order and the recorded
edges in discovery order. -/
def bfsLoop (st : Store) (tf : Option String) :
    Nat → List String → List String → List Relationship →
    List String × List Relationship
  | 0, visited, _, edges => (visited, edges)
  | fuel + 1, visited, frontier, edges =>
      if frontier.isEmpty then (visited, edges)
      else
        let rels := levelRels st tf frontier
        let fresh := collectNew visited rels []
        bfsLoop st tf fuel (visited ++ fresh) fresh (addRels edges rels)

/-- Modelled from the spec: the Neighborhood strategy's candidate sets
(§4.4) — BFS from the root at distance 0, visited entities resolved through
the store in visitation order. -/
def neighborhoodCandidates (st : Store) (tf : Option String) (root : String)
    (depth : Nat) : List Entity × List Relationship :=
  let res := bfsLoop st tf depth [root] [root] []
  (res.1.filterMap (getEntity st), res.2)

/-- Modelled from the spec: the Graph Assembler (§4.2–§4.4) — dispatches on
scope and produces the pre-truncation candidate node/edge lists, in the
deterministic priority order §4.5 truncates by. -/
def assemble (d : QueryDescriptor) (st : Store) :
    Except QueryError (List Entity × List Relationship) :=
  match d.scope with
  | Scope.full =>
      Except.ok (sortEnts st.entities,
        sortRels (st.relationships.filter (fun r => matchesType d.relationshipType r)))
  | Scope.byType =>
      let ns := sortEnts (listEntitiesByType st (d.entityType.getD ""))
      let ids := ns.map Entity.id
      Except.ok (ns,
        sortRels (st.relationships.filter (fun r =>
          matchesType d.relationshipType r &&
          ids.contains r.source && ids.contains r.target)))
  | Scope.neighborhood =>
      let root := d.rootId.getD ""
      match getEntity st root with
      | none => Except.error QueryError.notFound
      | some _ => Except.ok (neighborhoodCandidates st d.relationshipType root d.depth)

/-- Modelled from the spec: the Limit & Truncation Policy (§4.5) — keep the
first `limN` nodes of the priority order, re-derive the edge set so that
every surviving edge connects two surviving nodes, keep the first `limE` of
those, and flag truncation when step 1 or step 3 removed anything. -/
def truncate (nodes : List Entity) (edges : List Relationship)
    (limN limE : Nat) : GraphView :=
  let keptNodes := if nodes.length ≤ limN then nodes else nodes.take limN
  let ids := keptNodes.map Entity.id
  let connected := edges.filter (fun r => ids.contains r.source && ids.contains r.target)
  let keptEdges := if connected.length ≤ limE then connected else connected.take limE
  ⟨keptNodes, keptEdges,
    decide (limN < nodes.length) || decide (limE < connected.length)⟩

/-- Modelled from the spec: clearing a relationship's extradata while
keeping identifier, endpoints and type (§4.6). -/
def clearExtradata (r : Relationship) : Relationship :=
  { r with extradata := [] }

/-- Modelled from the spec: the Filter Pipeline's extradata-visibility step
(§4.6), applied after truncation. -/
def applyExtradata (inc : Bool) (v : GraphView) : GraphView :=
  if inc then v else { v with edges := v.edges.map clearExtradata }

/-- Modelled from the spec: execution of a validated query (§2 control
flow) — Assembler, then Truncation Policy, then extradata filter. -/
def execute (d : QueryDescriptor) (st : Store) : Except QueryError GraphView :=
  match assemble d st with
  | Except.error e => Except.error e
  | Except.ok c =>
      Except.ok (applyExtradata d.includeExtradata
        (truncate c.1 c.2 d.limitNodes d.limitEdges))

/-- Modelled from the spec: the full query pipeline (§2) — Validator first,
then execution against the store. -/
def runQuery (st : Store) (raw : RawQuery) : Except QueryError GraphView :=
  match validate raw with
  | Except.error e => Except.error (QueryError.validation e)
  | Except.ok d => execute d st

end Engine

namespace Engine

/-- Concrete store used to instantiate the engine theorems: the §8 scenario
— entities A, B, C and relationships A→B, A→C. -/
def exampleStore : Store :=
  ⟨[⟨"a", "person", []⟩, ⟨"b", "person", []⟩, ⟨"c", "company", []⟩],
   [⟨"r1", "a", "b", "knows", [("k", "v")]⟩, ⟨"r2", "a", "c", "works_at", []⟩]⟩

/-- Concrete neighborhood descriptor: root A, depth 1, no filters, default
limits. -/
def exampleQuery : QueryDescriptor :=
  ⟨Scope.neighborhood, none, some "a", 1, none, maxLimitNodes, maxLimitEdges, true⟩

end Engine

/-- C3: the validation error taxonomy — `by_type` without `entity_type` and
`neighborhood` without `root_id` give `MissingParameter`, an unrecognized
scope gives `InvalidScope`, a present but malformed `root_id` gives
`InvalidIdentifier`; and a validation failure decides the whole query
against every store, so no store access happens before validation
succeeds. -/
theorem c3_validation_taxonomy (raw : Engine.RawQuery) :
    (∀ s, raw.scope = some s → s ≠ "full" → s ≠ "by_type" → s ≠ "neighborhood" →
      Engine.validate raw = Except.error Engine.ValidationError.invalidScope) ∧
    (raw.scope = some "by_type" → raw.entityType = none →
      Engine.validate raw = Except.error Engine.ValidationError.missingParameter) ∧
    (raw.scope = some "neighborhood" → raw.rootId = none →
      Engine.validate raw = Except.error Engine.ValidationError.missingParameter) ∧
    (∀ r, raw.scope = some "neighborhood" → raw.rootId = some r →
      Engine.isValidIdentifier r = false →
      Engine.validate raw = Except.error Engine.ValidationError.invalidIdentifier) ∧
    (∀ (st : Engine.Store) (e : Engine.ValidationError),
      Engine.validate raw = Except.error e →
      Engine.runQuery st raw = Except.error (Engine.QueryError.validation e)) := by
  refine ⟨?_, ?_, ?_, ?_, ?_⟩
  · intro s hs h1 h2 h3
    have hp : Engine.parseScope (some s) = none := by
      unfold Engine.parseScope
      split <;> simp_all
    unfold Engine.validate
    rw [hs, hp]
  · intro hs he
    unfold Engine.validate
    rw [hs]
    simp [Engine.parseScope, he]
  · intro hs hr
    unfold Engine.validate
    rw [hs]
    simp [Engine.parseScope, hr]
  · intro r hs hr hv
    unfold Engine.validate
    rw [hs]
    simp [Engine.parseScope, hr, hv]
  · intro st e he
    unfold Engine.runQuery
    rw [he]

/-- C3 witness: the four error conditions and the store-independent failure
propagation, instantiated at concrete raw queries. -/
theorem c3_validation_witness :
    Engine.validate ⟨some "bogus", none, none, none, none, none, none, none⟩ =
      Except.error Engine.ValidationError.invalidScope ∧
    Engine.validate ⟨some "by_type", none, none, none, none, none, none, none⟩ =
      Except.error Engine.ValidationError.missingParameter ∧
    Engine.validate ⟨some "neighborhood", none, none, none, none, none, none, none⟩ =
      Except.error Engine.ValidationError.missingParameter ∧
    Engine.validate ⟨some "neighborhood", none, some "invalid-uuid", none, none, none, none, none⟩ =
      Except.error Engine.ValidationError.invalidIdentifier ∧
    Engine.runQuery Engine.exampleStore ⟨some "bogus", none, none, none, none, none, none, none⟩ =
      Except.error (Engine.QueryError.validation Engine.ValidationError.invalidScope) :=
  ⟨(c3_validation_taxonomy _).1 "bogus" rfl (by decide) (by decide) (by decide),
   (c3_validation_taxonomy _).2.1 rfl rfl,
   (c3_validation_taxonomy _).2.2.1 rfl rfl,
   (c3_validation_taxonomy _).2.2.2.1 "invalid-uuid" rfl rfl (by decide),
   (c3_validation_taxonomy _).2.2.2.2 Engine.exampleStore
     Engine.ValidationError.invalidScope
     ((c3_validation_taxonomy _).1 "bogus" rfl (by decide) (by decide) (by decide))⟩

/-- C5: when the neighborhood root id resolves to no entity, execution fails
with `NotFound` — both at the descriptor level and through the full query
pipeline — and never returns a graph view. -/
theorem c5_root_not_found (st : Engine.Store) (d : Engine.QueryDescriptor)
    (hscope : d.scope = Engine.Scope.neighborhood)
    (hroot : Engine.getEntity st (d.rootId.getD "") = none) :
    Engine.execute d st = Except.error Engine.QueryError.notFound ∧
    ∀ raw, Engine.validate raw = Except.ok d →
      Engine.runQuery st raw = Except.error Engine.QueryError.notFound := by
  have hx : Engine.execute d st = Except.error Engine.QueryError.notFound := by
    unfold Engine.execute Engine.assemble
    rw [hscope]
    simp [hroot]
  refine ⟨hx, ?_⟩
  intro raw hv
  unfold Engine.runQuery
  rw [hv]
  exact hx

/-- C5 witness: a well-formed root id absent from the store fails with
`NotFound` through the whole pipeline. -/
theorem c5_root_not_found_witness :
    Engine.runQuery Engine.exampleStore
      ⟨some "neighborhood", none, some "0728d481-9f62-4509-aed8-acc96b21b51f",
       none, none, none, none, none⟩ =
      Except.error Engine.QueryError.notFound :=
  (c5_root_not_found Engine.exampleStore
      ⟨Engine.Scope.neighborhood, none,
       some "0728d481-9f62-4509-aed8-acc96b21b51f", 1, none,
       Engine.maxLimitNodes, Engine.maxLimitEdges, true⟩
      rfl (by decide)).2 _ (by decide)

namespace Engine

/-- The assembler never reads the include-extradata flag. -/
lemma assemble_includeExtradata (d : QueryDescriptor) (st : Store) (b : Bool) :
    assemble { d with includeExtradata := b } st = assemble d st := by
  cases d
  rfl

/-- Turning extradata off only maps `clearExtradata` over the edges of the
result the `true` flag would produce. -/
lemma execute_extradata_map (sc : Scope) (et rid : Option String) (dep : Nat)
    (rt : Option String) (ln le' : Nat) (st : Store) :
    execute ⟨sc, et, rid, dep, rt, ln, le', false⟩ st =
      Except.map
        (fun v => GraphView.mk v.nodes (v.edges.map clearExtradata) v.truncated)
        (execute ⟨sc, et, rid, dep, rt, ln, le', true⟩ st) := by
  unfold execute
  have hasm : assemble ⟨sc, et, rid, dep, rt, ln, le', false⟩ st
      = assemble ⟨sc, et, rid, dep, rt, ln, le', true⟩ st := rfl
  rw [hasm]
  cases assemble ⟨sc, et, rid, dep, rt, ln, le', true⟩ st with
  | error e => rfl
  | ok c => simp [applyExtradata, Except.map]

end Engine

/-- C8: extradata suppression is a pure post-truncation frame effect — with
`include_extradata = false` the result is exactly the `true` result with
every relationship's extradata cleared (identifier, endpoints and type
retained), so node lists, edge counts and the truncation flag are
unchanged. -/
theorem c8_extradata_frame (d : Engine.QueryDescriptor) (st : Engine.Store) :
    Engine.execute { d with includeExtradata := false } st =
      Except.map
        (fun v => Engine.GraphView.mk v.nodes (v.edges.map Engine.clearExtradata) v.truncated)
        (Engine.execute { d with includeExtradata := true } st) ∧
    (∀ r, (Engine.clearExtradata r).id = r.id ∧
      (Engine.clearExtradata r).source = r.source ∧
      (Engine.clearExtradata r).target = r.target ∧
      (Engine.clearExtradata r).type = r.type ∧
      (Engine.clearExtradata r).extradata = []) ∧
    (∀ v v', Engine.execute { d with includeExtradata := true } st = Except.ok v →
      Engine.execute { d with includeExtradata := false } st = Except.ok v' →
      v'.nodes = v.nodes ∧ v'.truncated = v.truncated ∧
      v'.edges.length = v.edges.length) := by
  have hmain : Engine.execute { d with includeExtradata := false } st =
      Except.map
        (fun v => Engine.GraphView.mk v.nodes (v.edges.map Engine.clearExtradata) v.truncated)
        (Engine.execute { d with includeExtradata := true } st) := by
    cases d
    exact Engine.execute_extradata_map _ _ _ _ _ _ _ st
  refine ⟨hmain, fun r => ⟨rfl, rfl, rfl, rfl, rfl⟩, ?_⟩
  intro v v' hv hv'
  rw [hmain, hv] at hv'
  have : Engine.GraphView.mk v.nodes (v.edges.map Engine.clearExtradata) v.truncated = v' :=
    Except.ok.inj hv'
  rw [← this]
  exact ⟨rfl, rfl, by simp⟩

/-- C8 witness: the suppression law evaluated on the concrete scenario
store, where relationship `r1` carries extradata. -/
theorem c8_extradata_witness :
    Engine.execute { Engine.exampleQuery with includeExtradata := false } Engine.exampleStore =
      Except.ok
        ⟨[⟨"a", "person", []⟩, ⟨"b", "person", []⟩, ⟨"c", "company", []⟩],
         [⟨"r1", "a", "b", "knows", []⟩, ⟨"r2", "a", "c", "works_at", []⟩],
         false⟩ ∧
    (Engine.GraphView.mk
        [⟨"a", "person", []⟩, ⟨"b", "person", []⟩, ⟨"c", "company", []⟩]
        [⟨"r1", "a", "b", "knows", []⟩, ⟨"r2", "a", "c", "works_at", []⟩]
        false).nodes =
      (Engine.GraphView.mk
        [⟨"a", "person", []⟩, ⟨"b", "person", []⟩, ⟨"c", "company", []⟩]
        [⟨"r1", "a", "b", "knows", [("k", "v")]⟩, ⟨"r2", "a", "c", "works_at", []⟩]
        false).nodes :=
  ⟨by
    rw [(c8_extradata_frame Engine.exampleQuery Engine.exampleStore).1]
    decide,
   ((c8_extradata_frame Engine.exampleQuery Engine.exampleStore).2.2 _ _
      (by decide) (by
        rw [(c8_extradata_frame Engine.exampleQuery Engine.exampleStore).1]
        decide)).1⟩

namespace Engine

/-- The BFS loop only ever appends to the visited accumulator. -/
lemma bfsLoop_visited_prefix (st : Store) (tf : Option String) :
    ∀ (fuel : Nat) (visited frontier : List String) (edges : List Relationship),
      ∃ t, (bfsLoop st tf fuel visited frontier edges).1 = visited ++ t := by
  intro fuel
  induction fuel with
  | zero => exact fun visited frontier edges => ⟨[], by simp [bfsLoop]⟩
  | succ k ih =>
    intro visited frontier edges
    unfold bfsLoop
    by_cases h : frontier.isEmpty
    · exact ⟨[], by simp [h]⟩
    · rw [if_neg h]
      obtain ⟨t, ht⟩ := ih (visited ++ collectNew visited (levelRels st tf frontier) [])
        (collectNew visited (levelRels st tf frontier) [])
        (addRels edges (levelRels st tf frontier))
      exact ⟨collectNew visited (levelRels st tf frontier) [] ++ t, by
        rw [ht, List.append_assoc]⟩

/-- The extradata filter never touches the node list. -/
lemma applyExtradata_nodes (b : Bool) (v : GraphView) :
    (applyExtradata b v).nodes = v.nodes := by
  cases b <;> rfl

/-- The neighborhood candidate node list starts with the root entity. -/
lemma neighborhoodCandidates_head (st : Store) (tf : Option String)
    (root : String) (depth : Nat) (rootEnt : Entity)
    (h : getEntity st root = some rootEnt) :
    ∃ rest, (neighborhoodCandidates st tf root depth).1 = rootEnt :: rest := by
  obtain ⟨t, ht⟩ := bfsLoop_visited_prefix st tf depth [root] [root] []
  show ∃ rest,
    List.filterMap (getEntity st) (bfsLoop st tf depth [root] [root] []).1 =
      rootEnt :: rest
  rw [ht]
  simp only [List.cons_append, List.nil_append, List.filterMap_cons, h]
  exact ⟨_, rfl⟩

lemma mem_take_cons {α : Type} (x : α) (l : List α) (n : Nat) (h : 1 ≤ n) :
    x ∈ (x :: l).take n := by
  cases n with
  | zero => omega
  | succ m => simp [List.take_succ_cons]

end Engine

/-- C6: truncation exactness, root retention and the truncated flag — when
the candidates exceed `limit_nodes` exactly the first `limit_nodes`
candidates in priority order are kept; for a Neighborhood query whose root
resolves, the root entity is in the result whenever `limit_nodes ≥ 1`; and
`truncated` is true exactly when node truncation (step 1) or edge
truncation (step 3) removed something. -/
theorem c6_truncation_policy (nodes : List Engine.Entity)
    (edges : List Engine.Relationship) (limN limE : Nat) :
    (limN < nodes.length →
      (Engine.truncate nodes edges limN limE).nodes = nodes.take limN ∧
      (Engine.truncate nodes edges limN limE).nodes.length = limN) ∧
    ((Engine.truncate nodes edges limN limE).truncated = true ↔
      limN < nodes.length ∨
      limE < (edges.filter (fun r =>
        ((Engine.truncate nodes edges limN limE).nodes.map Engine.Entity.id).contains r.source &&
        ((Engine.truncate nodes edges limN limE).nodes.map Engine.Entity.id).contains r.target)).length) ∧
    (∀ (st : Engine.Store) (d : Engine.QueryDescriptor) (rootEnt : Engine.Entity)
        (v : Engine.GraphView),
      d.scope = Engine.Scope.neighborhood →
      Engine.getEntity st (d.rootId.getD "") = some rootEnt →
      1 ≤ d.limitNodes →
      Engine.execute d st = Except.ok v →
      rootEnt ∈ v.nodes) := by
  have hkept : (Engine.truncate nodes edges limN limE).nodes =
      if nodes.length ≤ limN then nodes else nodes.take limN := rfl
  refine ⟨?_, ?_, ?_⟩
  · intro h
    have hn : ¬ nodes.length ≤ limN := by omega
    rw [hkept, if_neg hn]
    exact ⟨rfl, by rw [List.length_take]; omega⟩
  · have htr : (Engine.truncate nodes edges limN limE).truncated =
        (decide (limN < nodes.length) ||
          decide (limE < (edges.filter (fun r =>
            (((if nodes.length ≤ limN then nodes else nodes.take limN).map Engine.Entity.id).contains r.source &&
             ((if nodes.length ≤ limN then nodes else nodes.take limN).map Engine.Entity.id).contains r.target))).length)) := rfl
    rw [htr, hkept]
    simp [Bool.or_eq_true, decide_eq_true_iff]
  · intro st d rootEnt v hscope hroot hlim hex
    unfold Engine.execute Engine.assemble at hex
    rw [hscope] at hex
    simp only [hroot] at hex
    obtain ⟨rest, hrest⟩ := Engine.neighborhoodCandidates_head st
      d.relationshipType (d.rootId.getD "") d.depth rootEnt hroot
    have hv : v = Engine.applyExtradata d.includeExtradata
        (Engine.truncate (Engine.neighborhoodCandidates st d.relationshipType
          (d.rootId.getD "") d.depth).1
          (Engine.neighborhoodCandidates st d.relationshipType
            (d.rootId.getD "") d.depth).2 d.limitNodes d.limitEdges) :=
      (Except.ok.inj hex).symm
    rw [hv, Engine.applyExtradata_nodes]
    have hkept2 : (Engine.truncate (rootEnt :: rest)
        (Engine.neighborhoodCandidates st d.relationshipType
          (d.rootId.getD "") d.depth).2 d.limitNodes d.limitEdges).nodes =
        if (rootEnt :: rest).length ≤ d.limitNodes then rootEnt :: rest
        else (rootEnt :: rest).take d.limitNodes := rfl
    rw [hrest, hkept2]
    by_cases hc : (rootEnt :: rest).length ≤ d.limitNodes
    · rw [if_pos hc]; exact List.mem_cons_self _ _
    · rw [if_neg hc]; exact Engine.mem_take_cons _ _ _ hlim

/-- C6 witness: the §8 scenario with `limit_nodes = 2` — exactly two nodes
kept, root retained, truncation flagged. -/
theorem c6_truncation_witness :
    (Engine.truncate
        [⟨"a", "person", []⟩, ⟨"b", "person", []⟩, ⟨"c", "company", []⟩]
        [⟨"r1", "a", "b", "knows", [("k", "v")]⟩, ⟨"r2", "a", "c", "works_at", []⟩]
        2 Engine.maxLimitEdges).nodes =
      [⟨"a", "person", []⟩, ⟨"b", "person", []⟩] ∧
    (⟨"a", "person", []⟩ : Engine.Entity) ∈
      (Engine.GraphView.mk
        [⟨"a", "person", []⟩, ⟨"b", "person", []⟩]
        [⟨"r1", "a", "b", "knows", [("k", "v")]⟩] true).nodes :=
  ⟨by
    have h := (c6_truncation_policy
      [⟨"a", "person", []⟩, ⟨"b", "person", []⟩, ⟨"c", "company", []⟩]
      [⟨"r1", "a", "b", "knows", [("k", "v")]⟩, ⟨"r2", "a", "c", "works_at", []⟩]
      2 Engine.maxLimitEdges).1 (by decide)
    rw [h.1]
    decide,
   (c6_truncation_policy [] [] 0 0).2.2 Engine.exampleStore
     { Engine.exampleQuery with limitNodes := 2 } _ _ rfl (by decide) (by decide)
     (by decide)⟩

namespace Engine

/-- There is an undirected walk of length at most `n` from `a` to `b` along
store relationships passing the type filter — the BFS distance bound of
§4.4 (relationships are traversable in either direction). -/
def pathLeB (st : Store) (tf : Option String) : Nat → String → String → Bool
  | 0, a, b => a == b
  | n + 1, a, b =>
      a == b ||
        st.relationships.any (fun r => matchesType tf r &&
          ((r.source == a && pathLeB st tf n r.target b) ||
           (r.target == a && pathLeB st tf n r.source b)))

lemma pathLeB_self (st : Store) (tf : Option String) (n : Nat) (a : String) :
    pathLeB st tf n a a = true := by
  cases n <;> simp [pathLeB]

lemma pathLeB_succ_iff (st : Store) (tf : Option String) (n : Nat) (a b : String) :
    pathLeB st tf (n + 1) a b = true ↔
      a = b ∨ ∃ r ∈ st.relationships, matchesType tf r = true ∧
        ((r.source = a ∧ pathLeB st tf n r.target b = true) ∨
         (r.target = a ∧ pathLeB st tf n r.source b = true)) := by
  simp [pathLeB, List.any_eq_true, Bool.or_eq_true, Bool.and_eq_true, beq_iff_eq,
    and_assoc]

/-- Extend a bounded walk by one relationship hop at the front. -/
lemma pathLeB_step (st : Store) (tf : Option String) {r : Relationship}
    {f g x : String} {n : Nat} (hr : r ∈ st.relationships)
    (hm : matchesType tf r = true)
    (hadj : (r.source = f ∧ r.target = g) ∨ (r.target = f ∧ r.source = g))
    (hp : pathLeB st tf n g x = true) :
    pathLeB st tf (n + 1) f x = true := by
  rw [pathLeB_succ_iff]
  rcases hadj with ⟨h1, h2⟩ | ⟨h1, h2⟩
  · exact Or.inr ⟨r, hr, hm, Or.inl ⟨h1, h2 ▸ hp⟩⟩
  · exact Or.inr ⟨r, hr, hm, Or.inr ⟨h1, h2 ▸ hp⟩⟩

lemma mem_addFresh {visited acc : List String} {y x : String}
    (h : x ∈ addFresh visited acc y) :
    x ∈ acc ∨ (x = y ∧ x ∉ visited) := by
  unfold addFresh at h
  split at h
  · exact Or.inl h
  · next hc =>
    rcases List.mem_append.mp h with h1 | h1
    · exact Or.inl h1
    · rw [List.mem_singleton] at h1
      subst h1
      refine Or.inr ⟨rfl, fun hv => ?_⟩
      exact hc ((Bool.or_eq_true _ _).mpr (Or.inl (List.elem_iff.mpr hv)))

lemma mem_collectNew {visited : List String} :
    ∀ {rs : List Relationship} {acc : List String} {x : String},
      x ∈ collectNew visited rs acc →
      x ∈ acc ∨ (x ∉ visited ∧ ∃ r ∈ rs, r.source = x ∨ r.target = x) := by
  intro rs
  induction rs with
  | nil => exact fun h => Or.inl h
  | cons r rs ih =>
    intro acc x h
    rcases ih h with h1 | ⟨h1, r', hr', h2⟩
    · rcases mem_addFresh h1 with h2 | ⟨h2, h3⟩
      · rcases mem_addFresh h2 with h4 | ⟨h4, h5⟩
        · exact Or.inl h4
        · exact Or.inr ⟨h5, r, List.mem_cons_self _ _, Or.inl h4.symm⟩
      · exact Or.inr ⟨h3, r, List.mem_cons_self _ _, Or.inr h2.symm⟩
    · exact Or.inr ⟨h1, r', List.mem_cons_of_mem _ hr', h2⟩

lemma mem_levelRels {st : Store} {tf : Option String} {frontier : List String}
    {r : Relationship} (h : r ∈ levelRels st tf frontier) :
    r ∈ st.relationships ∧ matchesType tf r = true ∧
      (r.source ∈ frontier ∨ r.target ∈ frontier) := by
  unfold levelRels sortRels at h
  rw [(List.perm_insertionSort relLe _).mem_iff] at h
  unfold relationshipsTouching at h
  rw [List.mem_filter] at h
  obtain ⟨h1, h2⟩ := h
  rw [Bool.and_eq_true] at h2
  refine ⟨h1, h2.1, ?_⟩
  have := h2.2
  unfold relTouches at this
  rw [Bool.or_eq_true] at this
  rcases this with h3 | h3
  · exact Or.inl (List.elem_iff.mp h3)
  · exact Or.inr (List.elem_iff.mp h3)

/-- BFS loop invariant: every id in the final visited accumulator was
already visited or lies within `fuel` hops of the current frontier. -/
lemma bfsLoop_nodes_bound (st : Store) (tf : Option String) :
    ∀ (fuel : Nat) (visited frontier : List String) (edges : List Relationship),
      frontier ⊆ visited →
      ∀ x ∈ (bfsLoop st tf fuel visited frontier edges).1,
        x ∈ visited ∨ ∃ f ∈ frontier, pathLeB st tf fuel f x = true := by
  intro fuel
  induction fuel with
  | zero =>
    intro visited frontier edges hsub x hx
    exact Or.inl hx
  | succ k ih =>
    intro visited frontier edges hsub x hx
    unfold bfsLoop at hx
    by_cases hemp : frontier.isEmpty
    · rw [if_pos hemp] at hx
      exact Or.inl hx
    · rw [if_neg hemp] at hx
      have hfrontier_sub : collectNew visited (levelRels st tf frontier) [] ⊆
          visited ++ collectNew visited (levelRels st tf frontier) [] := by
        intro y hy
        exact List.mem_append_right _ hy
      have hadj : ∀ y ∈ collectNew visited (levelRels st tf frontier) [],
          ∃ f ∈ frontier, ∃ r ∈ st.relationships, matchesType tf r = true ∧
            ((r.source = f ∧ r.target = y) ∨ (r.target = f ∧ r.source = y)) := by
        intro y hy
        rcases mem_collectNew hy with h1 | ⟨hnv, r, hr, hend⟩
        · simp at h1
        · obtain ⟨hrs, hm, htouch⟩ := mem_levelRels hr
          rcases hend with hsrc | htgt
          · rcases htouch with hf | hf
            · exact absurd (hsub (hsrc ▸ hf)) hnv
            · exact ⟨r.target, hf, r, hrs, hm, Or.inr ⟨rfl, hsrc⟩⟩
          · rcases htouch with hf | hf
            · exact ⟨r.source, hf, r, hrs, hm, Or.inl ⟨rfl, htgt⟩⟩
            · exact absurd (hsub (htgt ▸ hf)) hnv
      rcases ih (visited ++ collectNew visited (levelRels st tf frontier) [])
          (collectNew visited (levelRels st tf frontier) [])
          (addRels edges (levelRels st tf frontier)) hfrontier_sub x hx with
        h1 | ⟨g, hg, hpg⟩
      · rcases List.mem_append.mp h1 with h2 | h2
        · exact Or.inl h2
        · obtain ⟨f, hf, r, hrs, hm, hor⟩ := hadj x h2
          exact Or.inr ⟨f, hf, pathLeB_step st tf hrs hm hor (pathLeB_self st tf k x)⟩
      · obtain ⟨f, hf, r, hrs, hm, hor⟩ := hadj g hg
        exact Or.inr ⟨f, hf, pathLeB_step st tf hrs hm hor hpg⟩

end Engine

namespace Engine

/-- Every entity in the neighborhood candidate set lies within `depth` hops
of the root. -/
lemma neighborhoodCandidates_pathLe (st : Store) (tf : Option String)
    (root : String) (depth : Nat) :
    ∀ e ∈ (neighborhoodCandidates st tf root depth).1,
      pathLeB st tf depth root e.id = true := by
  intro e he
  have he' : e ∈ List.filterMap (getEntity st)
      (bfsLoop st tf depth [root] [root] []).1 := he
  rw [List.mem_filterMap] at he'
  obtain ⟨i, hi, hg⟩ := he'
  have hid : e.id = i := by
    have := List.find?_some hg
    simpa using this
  rcases bfsLoop_nodes_bound st tf depth [root] [root] []
      (fun y hy => hy) i hi with h1 | ⟨f, hf, hp⟩
  · rw [List.mem_singleton] at h1
    rw [hid, h1]
    exact pathLeB_self st tf depth root
  · rw [List.mem_singleton] at hf
    rw [hid]
    exact hf ▸ hp

end Engine

/-- C4: neighborhood depth bound — every node of a neighborhood result lies
within `depth` hops of the root along type-filtered relationships, and any
id with no walk of length ≤ depth from the root (in particular one whose
minimal BFS distance is depth + 1) names no node of the result, reachable
or not. -/
theorem c4_neighborhood_depth_bound (st : Engine.Store)
    (d : Engine.QueryDescriptor) (v : Engine.GraphView)
    (hscope : d.scope = Engine.Scope.neighborhood)
    (hex : Engine.execute d st = Except.ok v) :
    (∀ e ∈ v.nodes,
      Engine.pathLeB st d.relationshipType d.depth (d.rootId.getD "") e.id = true) ∧
    (∀ y, Engine.pathLeB st d.relationshipType d.depth (d.rootId.getD "") y = false →
      ∀ e ∈ v.nodes, e.id ≠ y) := by
  unfold Engine.execute Engine.assemble at hex
  rw [hscope] at hex
  cases hroot : Engine.getEntity st (d.rootId.getD "") with
  | none =>
    simp only [hroot] at hex
    exact Except.noConfusion hex
  | some rootEnt =>
    simp only [hroot] at hex
    have hv : v = Engine.applyExtradata d.includeExtradata
        (Engine.truncate
          (Engine.neighborhoodCandidates st d.relationshipType
            (d.rootId.getD "") d.depth).1
          (Engine.neighborhoodCandidates st d.relationshipType
            (d.rootId.getD "") d.depth).2 d.limitNodes d.limitEdges) :=
      (Except.ok.inj hex).symm
    have hmain : ∀ e ∈ v.nodes,
        Engine.pathLeB st d.relationshipType d.depth (d.rootId.getD "") e.id = true := by
      intro e he
      rw [hv, Engine.applyExtradata_nodes] at he
      have htn : (Engine.truncate
          (Engine.neighborhoodCandidates st d.relationshipType
            (d.rootId.getD "") d.depth).1
          (Engine.neighborhoodCandidates st d.relationshipType
            (d.rootId.getD "") d.depth).2 d.limitNodes d.limitEdges).nodes =
          if (Engine.neighborhoodCandidates st d.relationshipType
              (d.rootId.getD "") d.depth).1.length ≤ d.limitNodes then
            (Engine.neighborhoodCandidates st d.relationshipType
              (d.rootId.getD "") d.depth).1
          else
            (Engine.neighborhoodCandidates st d.relationshipType
              (d.rootId.getD "") d.depth).1.take d.limitNodes := rfl
      rw [htn] at he
      have hmem : e ∈ (Engine.neighborhoodCandidates st d.relationshipType
          (d.rootId.getD "") d.depth).1 := by
        split at he
        · exact he
        · exact (List.take_sublist _ _).subset he
      exact Engine.neighborhoodCandidates_pathLe st d.relationshipType
        (d.rootId.getD "") d.depth e hmem
    refine ⟨hmain, ?_⟩
    intro y hy e he hey
    have hp := hmain e he
    rw [hey, hy] at hp
    exact Bool.noConfusion hp

/-- C4 witness: in the §8 scenario, node B at distance 1 is within the
depth-1 bound; for the depth-0 query, id `b` (distance 1) appears on no
result node. -/
theorem c4_neighborhood_witness :
    Engine.pathLeB Engine.exampleStore none 1 "a" "b" = true ∧
    (⟨"a", "person", []⟩ : Engine.Entity).id ≠ "b" :=
  ⟨(c4_neighborhood_depth_bound Engine.exampleStore Engine.exampleQuery
      ⟨[⟨"a", "person", []⟩, ⟨"b", "person", []⟩, ⟨"c", "company", []⟩],
       [⟨"r1", "a", "b", "knows", [("k", "v")]⟩, ⟨"r2", "a", "c", "works_at", []⟩],
       false⟩ rfl (by decide)).1 ⟨"b", "person", []⟩ (by decide),
   (c4_neighborhood_depth_bound Engine.exampleStore
      { Engine.exampleQuery with depth := 0 }
      ⟨[⟨"a", "person", []⟩], [], false⟩ rfl (by decide)).2 "b" (by decide)
      ⟨"a", "person", []⟩ (by decide)⟩

namespace Engine

lemma charsLe_cons (a b : Char) (as bs : List Char) :
    charsLe (a :: as) (b :: bs) =
      if a < b then true else if b < a then false else charsLe as bs := rfl

lemma charsLe_total : ∀ as bs : List Char, charsLe as bs = true ∨ charsLe bs as = true
  | [], _ => Or.inl rfl
  | _ :: _, [] => Or.inr rfl
  | a :: as, b :: bs => by
    by_cases hab : a < b
    · exact Or.inl (by rw [charsLe_cons, if_pos hab])
    · by_cases hba : b < a
      · exact Or.inr (by rw [charsLe_cons, if_pos hba])
      · rcases charsLe_total as bs with h | h
        · exact Or.inl (by rw [charsLe_cons, if_neg hab, if_neg hba]; exact h)
        · exact Or.inr (by rw [charsLe_cons, if_neg hba, if_neg hab]; exact h)

lemma charsLe_trans : ∀ as bs cs : List Char,
    charsLe as bs = true → charsLe bs cs = true → charsLe as cs = true
  | [], _, _, _, _ => rfl
  | _ :: _, [], _, h1, _ => absurd h1 (by simp [charsLe])
  | _ :: _, _ :: _, [], _, h2 => absurd h2 (by simp [charsLe])
  | a :: as, b :: bs, c :: cs, h1, h2 => by
    by_cases hab : a < b
    · by_cases hbc : b < c
      · rw [charsLe_cons, if_pos (lt_trans hab hbc)]
      · by_cases hcb : c < b
        · rw [charsLe_cons, if_neg hbc, if_pos hcb] at h2
          exact Bool.noConfusion h2
        · have : b = c := le_antisymm (not_lt.mp hcb) (not_lt.mp hbc)
          subst this
          rw [charsLe_cons, if_pos hab]
    · by_cases hba : b < a
      · rw [charsLe_cons, if_neg hab, if_pos hba] at h1
        exact Bool.noConfusion h1
      · have : a = b := le_antisymm (not_lt.mp hba) (not_lt.mp hab)
        subst this
        rw [charsLe_cons, if_neg hab, if_neg hba] at h1
        by_cases hac : a < c
        · rw [charsLe_cons, if_pos hac]
        · by_cases hca : c < a
          · rw [charsLe_cons, if_neg hac, if_pos hca] at h2
            exact Bool.noConfusion h2
          · have : a = c := le_antisymm (not_lt.mp hca) (not_lt.mp hac)
            subst this
            rw [charsLe_cons, if_neg hac, if_neg hca] at h2 ⊢
            exact charsLe_trans as bs cs h1 h2

lemma charsLe_antisymm : ∀ as bs : List Char,
    charsLe as bs = true → charsLe bs as = true → as = bs
  | [], [], _, _ => rfl
  | [], _ :: _, _, h2 => absurd h2 (by simp [charsLe])
  | _ :: _, [], h1, _ => absurd h1 (by simp [charsLe])
  | a :: as, b :: bs, h1, h2 => by
    by_cases hab : a < b
    · rw [charsLe_cons, if_neg (lt_asymm hab), if_pos hab] at h2
      exact Bool.noConfusion h2
    · by_cases hba : b < a
      · rw [charsLe_cons, if_neg hab, if_pos hba] at h1
        exact Bool.noConfusion h1
      · have : a = b := le_antisymm (not_lt.mp hba) (not_lt.mp hab)
        subst this
        rw [charsLe_cons, if_neg hab, if_neg hab] at h1 h2
        rw [charsLe_antisymm as bs h1 h2]

lemma idLe_total (a b : String) : idLe a b = true ∨ idLe b a = true :=
  charsLe_total a.data b.data

lemma idLe_trans {a b c : String} (h1 : idLe a b = true) (h2 : idLe b c = true) :
    idLe a c = true :=
  charsLe_trans a.data b.data c.data h1 h2

lemma idLe_antisymm {a b : String} (h1 : idLe a b = true) (h2 : idLe b a = true) :
    a = b :=
  String.ext (charsLe_antisymm a.data b.data h1 h2)

instance : IsTotal Relationship relLe := ⟨fun a b => idLe_total a.id b.id⟩

instance : IsTrans Relationship relLe := ⟨fun _ _ _ => idLe_trans⟩

instance : IsTotal Entity entLe := ⟨fun a b => idLe_total a.id b.id⟩

instance : IsTrans Entity entLe := ⟨fun _ _ _ => idLe_trans⟩

end Engine

namespace Engine

/-- Sorting by unique relationship ids is invariant under permutation of
the input — the ordering the store iterates in does not matter. -/
lemma sortRels_eq_of_perm (rs1 rs2 : List Relationship) (hperm : rs1.Perm rs2)
    (hnd : (rs1.map Relationship.id).Nodup) : sortRels rs1 = sortRels rs2 := by
  have hs1 : List.Sorted relLe (sortRels rs1) := List.sorted_insertionSort relLe rs1
  have hs2 : List.Sorted relLe (sortRels rs2) := List.sorted_insertionSort relLe rs2
  have hp : (sortRels rs1).Perm (sortRels rs2) :=
    (List.perm_insertionSort relLe rs1).trans
      (hperm.trans (List.perm_insertionSort relLe rs2).symm)
  have hnd1 : ((sortRels rs1).map Relationship.id).Nodup :=
    ((List.perm_insertionSort relLe rs1).map Relationship.id).nodup_iff.mpr hnd
  have hnd2 : ((sortRels rs2).map Relationship.id).Nodup :=
    ((hp.map Relationship.id).nodup_iff).mp hnd1
  have hpw1 : List.Pairwise (fun a b => relLe a b ∧ a.id ≠ b.id) (sortRels rs1) :=
    hs1.and (List.pairwise_map.mp hnd1)
  have hpw2 : List.Pairwise (fun a b => relLe a b ∧ a.id ≠ b.id) (sortRels rs2) :=
    hs2.and (List.pairwise_map.mp hnd2)
  exact @List.eq_of_perm_of_sorted _ (fun a b => relLe a b ∧ a.id ≠ b.id)
    ⟨fun a b h1 h2 => absurd (idLe_antisymm h1.1 h2.1) h1.2⟩ _ _ hp hpw1 hpw2

/-- Sorting by unique entity ids is invariant under permutation of the
input. -/
lemma sortEnts_eq_of_perm (es1 es2 : List Entity) (hperm : es1.Perm es2)
    (hnd : (es1.map Entity.id).Nodup) : sortEnts es1 = sortEnts es2 := by
  have hs1 : List.Sorted entLe (sortEnts es1) := List.sorted_insertionSort entLe es1
  have hs2 : List.Sorted entLe (sortEnts es2) := List.sorted_insertionSort entLe es2
  have hp : (sortEnts es1).Perm (sortEnts es2) :=
    (List.perm_insertionSort entLe es1).trans
      (hperm.trans (List.perm_insertionSort entLe es2).symm)
  have hnd1 : ((sortEnts es1).map Entity.id).Nodup :=
    ((List.perm_insertionSort entLe es1).map Entity.id).nodup_iff.mpr hnd
  have hnd2 : ((sortEnts es2).map Entity.id).Nodup :=
    ((hp.map Entity.id).nodup_iff).mp hnd1
  have hpw1 : List.Pairwise (fun a b => entLe a b ∧ a.id ≠ b.id) (sortEnts es1) :=
    hs1.and (List.pairwise_map.mp hnd1)
  have hpw2 : List.Pairwise (fun a b => entLe a b ∧ a.id ≠ b.id) (sortEnts es2) :=
    hs2.and (List.pairwise_map.mp hnd2)
  exact @List.eq_of_perm_of_sorted _ (fun a b => entLe a b ∧ a.id ≠ b.id)
    ⟨fun a b h1 h2 => absurd (idLe_antisymm h1.1 h2.1) h1.2⟩ _ _ hp hpw1 hpw2

/-- Nodup ids survive filtering. -/
lemma nodup_map_filter {α β : Type} (f : α → β) (p : α → Bool) (l : List α)
    (hnd : (l.map f).Nodup) : ((l.filter p).map f).Nodup :=
  ((List.filter_sublist l).map f).nodup hnd

end Engine

namespace Engine

/-- `GetEntity` is insensitive to store iteration order when entity ids are
unique. -/
lemma getEntity_eq (s1 s2 : Store) (hpe : s1.entities.Perm s2.entities)
    (hnde : (s1.entities.map Entity.id).Nodup) (i : String) :
    getEntity s1 i = getEntity s2 i := by
  unfold getEntity
  cases h1 : s1.entities.find? (fun e => e.id == i) with
  | none =>
    have h1' := List.find?_eq_none.mp h1
    symm
    rw [List.find?_eq_none]
    intro x hx
    exact h1' x (hpe.symm.subset hx)
  | some e =>
    have hmem : e ∈ s1.entities := List.mem_of_find?_eq_some h1
    have hpeq : (e.id == i) = true := by
      have := List.find?_some h1
      simpa using this
    cases h2 : s2.entities.find? (fun e => e.id == i) with
    | none =>
      have := List.find?_eq_none.mp h2 e (hpe.subset hmem)
      exact absurd hpeq this
    | some e' =>
      have hmem' : e' ∈ s1.entities := hpe.symm.subset (List.mem_of_find?_eq_some h2)
      have hpeq' : (e'.id == i) = true := by
        have := List.find?_some h2
        simpa using this
      have : e = e' := List.inj_on_of_nodup_map hnde hmem hmem' (by
        rw [beq_iff_eq] at hpeq hpeq'
        rw [hpeq, hpeq'])
      rw [this]

/-- The per-level batched fetch is insensitive to store iteration order
when relationship ids are unique. -/
lemma levelRels_eq (s1 s2 : Store) (hpr : s1.relationships.Perm s2.relationships)
    (hndr : (s1.relationships.map Relationship.id).Nodup)
    (tf : Option String) (frontier : List String) :
    levelRels s1 tf frontier = levelRels s2 tf frontier := by
  unfold levelRels relationshipsTouching
  exact sortRels_eq_of_perm _ _ (hpr.filter _) (nodup_map_filter _ _ _ hndr)

lemma bfsLoop_eq (s1 s2 : Store) (tf : Option String)
    (hlr : ∀ frontier, levelRels s1 tf frontier = levelRels s2 tf frontier) :
    ∀ (fuel : Nat) (visited frontier : List String) (edges : List Relationship),
      bfsLoop s1 tf fuel visited frontier edges =
        bfsLoop s2 tf fuel visited frontier edges := by
  intro fuel
  induction fuel with
  | zero => intro visited frontier edges; rfl
  | succ k ih =>
    intro visited frontier edges
    unfold bfsLoop
    by_cases h : frontier.isEmpty
    · rw [if_pos h, if_pos h]
    · rw [if_neg h, if_neg h, hlr frontier]
      exact ih _ _ _

lemma neighborhoodCandidates_eq (s1 s2 : Store)
    (hpe : s1.entities.Perm s2.entities)
    (hpr : s1.relationships.Perm s2.relationships)
    (hnde : (s1.entities.map Entity.id).Nodup)
    (hndr : (s1.relationships.map Relationship.id).Nodup)
    (tf : Option String) (root : String) (depth : Nat) :
    neighborhoodCandidates s1 tf root depth =
      neighborhoodCandidates s2 tf root depth := by
  unfold neighborhoodCandidates
  rw [bfsLoop_eq s1 s2 tf (levelRels_eq s1 s2 hpr hndr tf) depth [root] [root] []]
  rw [funext (getEntity_eq s1 s2 hpe hnde)]

/-- The whole assembler is insensitive to store iteration order when ids
are unique. -/
lemma assemble_eq (s1 s2 : Store)
    (hpe : s1.entities.Perm s2.entities)
    (hpr : s1.relationships.Perm s2.relationships)
    (hnde : (s1.entities.map Entity.id).Nodup)
    (hndr : (s1.relationships.map Relationship.id).Nodup)
    (d : QueryDescriptor) :
    assemble d s1 = assemble d s2 := by
  unfold assemble
  cases d.scope with
  | full =>
    rw [sortEnts_eq_of_perm _ _ hpe hnde,
      sortRels_eq_of_perm _ _ (hpr.filter _) (nodup_map_filter _ _ _ hndr)]
  | byType =>
    have hns : sortEnts (listEntitiesByType s1 (d.entityType.getD "")) =
        sortEnts (listEntitiesByType s2 (d.entityType.getD "")) := by
      unfold listEntitiesByType
      exact sortEnts_eq_of_perm _ _ (hpe.filter _) (nodup_map_filter _ _ _ hnde)
    show Except.ok
        (sortEnts (listEntitiesByType s1 (d.entityType.getD "")),
          sortRels (s1.relationships.filter (fun r =>
            matchesType d.relationshipType r &&
            ((sortEnts (listEntitiesByType s1 (d.entityType.getD ""))).map Entity.id).contains r.source &&
            ((sortEnts (listEntitiesByType s1 (d.entityType.getD ""))).map Entity.id).contains r.target))) =
      Except.ok
        (sortEnts (listEntitiesByType s2 (d.entityType.getD "")),
          sortRels (s2.relationships.filter (fun r =>
            matchesType d.relationshipType r &&
            ((sortEnts (listEntitiesByType s2 (d.entityType.getD ""))).map Entity.id).contains r.source &&
            ((sortEnts (listEntitiesByType s2 (d.entityType.getD ""))).map Entity.id).contains r.target)))
    rw [← hns, sortRels_eq_of_perm _ _ (hpr.filter _) (nodup_map_filter _ _ _ hndr)]
  | neighborhood =>
    show (match getEntity s1 (d.rootId.getD "") with
        | none => Except.error QueryError.notFound
        | some _ => Except.ok (neighborhoodCandidates s1 d.relationshipType
            (d.rootId.getD "") d.depth)) =
      (match getEntity s2 (d.rootId.getD "") with
        | none => Except.error QueryError.notFound
        | some _ => Except.ok (neighborhoodCandidates s2 d.relationshipType
            (d.rootId.getD "") d.depth))
    rw [← getEntity_eq s1 s2 hpe hnde]
    cases getEntity s1 (d.rootId.getD "") with
    | none => rfl
    | some e =>
      rw [neighborhoodCandidates_eq s1 s2 hpe hpr hnde hndr]

end Engine

namespace Engine

/-- The §8 scenario store with both collections listed in reverse iteration
order. -/
def exampleStoreRev : Store :=
  ⟨[⟨"c", "company", []⟩, ⟨"b", "person", []⟩, ⟨"a", "person", []⟩],
   [⟨"r2", "a", "c", "works_at", []⟩, ⟨"r1", "a", "b", "knows", [("k", "v")]⟩]⟩

end Engine

/-- C7: determinism — the pipeline is a pure function of the query and the
store contents: two stores holding the same entities and relationships in
any iteration order (ids unique) produce identical results, node and edge
sequences included; and the relationships fetched for a BFS frontier level
are always in ascending relationship-id order. -/
theorem c7_determinism (raw : Engine.RawQuery) (s1 s2 : Engine.Store)
    (hpe : s1.entities.Perm s2.entities)
    (hpr : s1.relationships.Perm s2.relationships)
    (hnde : (s1.entities.map Engine.Entity.id).Nodup)
    (hndr : (s1.relationships.map Engine.Relationship.id).Nodup) :
    Engine.runQuery s1 raw = Engine.runQuery s2 raw ∧
    (∀ tf frontier,
      List.Pairwise Engine.relLe (Engine.levelRels s1 tf frontier)) := by
  constructor
  · unfold Engine.runQuery
    cases hval : Engine.validate raw with
    | error e => rfl
    | ok d =>
      show Engine.execute d s1 = Engine.execute d s2
      unfold Engine.execute
      rw [Engine.assemble_eq s1 s2 hpe hpr hnde hndr d]
  · intro tf frontier
    exact List.sorted_insertionSort Engine.relLe _

/-- C7 witness: the full-scope query returns the same ordered result on the
scenario store and its reversed copy, and a concrete level fetch comes back
sorted by relationship id. -/
theorem c7_determinism_witness :
    Engine.runQuery Engine.exampleStore
        ⟨some "full", none, none, none, none, none, none, none⟩ =
      Engine.runQuery Engine.exampleStoreRev
        ⟨some "full", none, none, none, none, none, none, none⟩ ∧
    List.Pairwise Engine.relLe (Engine.levelRels Engine.exampleStore none ["a"]) :=
  ⟨(c7_determinism ⟨some "full", none, none, none, none, none, none, none⟩
      Engine.exampleStore Engine.exampleStoreRev
      (by decide) (by decide) (by decide) (by decide)).1,
   (c7_determinism ⟨some "full", none, none, none, none, none, none, none⟩
      Engine.exampleStore Engine.exampleStoreRev
      (by decide) (by decide) (by decide) (by decide)).2 none ["a"]⟩
